import Mathlib

/-!
Shallow embedding of the apexd package-database core (`apex_database.cpp`,
`apex_manifest.cpp`) and proofs about it.

C++ `std::string` values are embedded as `List Char`; external inputs (the
sysfs metadata tree, the live mount table, the protobuf/JSON decoders) are
passed in explicitly as data so that every function is a pure, executable
Lean definition.
-/

namespace ApexSpec

/-- C++ strings are embedded as lists of characters. -/
abbrev Str := List Char

/-- The whitespace class used by `std::isspace` (and hence `android::base::Trim`
and `strtoll`): space, tab, newline, vertical tab, form feed, carriage return. -/
def isSpaceChar (c : Char) : Bool :=
  c = ' ' || c = '\t' || c = '\n' || c = '\x0b' || c = '\x0c' || c = '\r'

/-- `android::base::Trim`: strip leading and trailing whitespace. -/
def trim (s : Str) : Str :=
  ((s.dropWhile isSpaceChar).reverse.dropWhile isSpaceChar).reverse

/-- `android::base::StartsWith(s, p)` embedded as `strStartsWith p s`. -/
def strStartsWith : Str → Str → Bool
  | [], _ => true
  | _ :: _, [] => false
  | p :: ps, c :: cs => p = c && strStartsWith ps cs

/-- `android::base::Split(s, d)` for a single-character delimiter `d`:
splits at every occurrence, keeping empty tokens; never returns `[]`. -/
def splitOnChar (d : Char) : Str → List Str
  | [] => [[]]
  | c :: rest =>
    if c = d then [] :: splitOnChar d rest
    else
      match splitOnChar d rest with
      | [] => [[c]]
      | t :: ts => (c :: t) :: ts

/-- `std::filesystem::path::filename`: the component after the last slash. -/
def filename (p : Str) : Str :=
  (p.reverse.takeWhile (· != '/')).reverse

/-- `std::filesystem::path::parent_path`: the portion before the last slash
(`"/x"` has parent `"/"`, a slash-free path has an empty parent). -/
def parentPath (p : Str) : Str :=
  if p.contains '/' then
    let pre := (p.reverse.dropWhile (· != '/')).reverse
    if pre = ['/'] then pre else pre.dropLast
  else []

/-- Value of a decimal digit string, as accumulated by `strtoll`. -/
def decVal (s : Str) : Nat :=
  s.foldl (fun a c => a * 10 + (c.toNat - 48)) 0

/-- Decimal digits of a natural number, most significant first
(the digit production of `std::to_string`). -/
def natDigits (n : Nat) : Str :=
  if _h : n < 10 then [Nat.digitChar n]
  else natDigits (n / 10) ++ [Nat.digitChar (n % 10)]
decreasing_by exact Nat.div_lt_self (by omega) (by omega)

/-- `std::to_string` on a 64-bit signed integer. -/
def intToDecimal (v : Int) : Str :=
  if v < 0 then '-' :: natDigits (-v).toNat else natDigits v.toNat

/-- `android::base::ParseInt<int>`: `strtoll` (skip leading whitespace,
optional sign, decimal digits, whole string consumed) followed by the
`[INT_MIN, INT_MAX]` range check. Returns `none` exactly when the C++
function returns `false`. -/
def parseIntCpp (s : Str) : Option Int :=
  let s1 := s.dropWhile isSpaceChar
  let neg := decide (s1.head? = some '-')
  let ds := if s1.head? = some '-' ∨ s1.head? = some '+' then s1.tail else s1
  if ds = [] then none
  else if ds.all Char.isDigit then
    let n : Int := Int.ofNat (decVal ds)
    let v : Int := if neg then -n else n
    if -2147483648 ≤ v ∧ v ≤ 2147483647 then some v else none
  else none

/-- `kApexRoot` from `apex_constants.h` (not part of the provided sources);
the spec calls it the package root, AOSP uses `/apex`. -/
def kApexRoot : Str := "/apex".toList

/-- `/dev/block` prefix for device nodes. -/
def kDevBlock : Str := "/dev/block".toList

/-- `/sys/block` prefix for sysfs metadata. -/
def kSysBlock : Str := "/sys/block".toList

/-- `parseMountInfo`: first two space-separated tokens of a `/proc/mounts`
line, `("", "")` when fewer than two tokens exist. -/
def parseMountInfo (mountInfo : Str) : Str × Str :=
  match splitOnChar ' ' mountInfo with
  | t0 :: t1 :: _ => (t0, t1)
  | _ => ([], [])

/-- `parseMountPoint`: split the mount point's filename on `'@'`; with
exactly two pieces the second is parsed as an int (`-1` on parse failure),
otherwise the whole filename is returned with version `-1`. -/
def parseMountPoint (mountPoint : Str) : Str × Int :=
  let packageId := filename mountPoint
  match splitOnChar '@' packageId with
  | [a, b] =>
    match parseIntCpp b with
    | some version => (a, version)
    | none => (a, -1)
  | _ => (packageId, -1)

/-- `isActiveMountPoint`: the mount point contains no `'@'`. -/
def isActiveMountPoint (mountPoint : Str) : Bool :=
  !(mountPoint.contains '@')

/-- The block-device classification of `apex_database.cpp`. -/
inductive BlockDeviceType
  | UnknownDevice
  | LoopDevice
  | DeviceMapperDevice
  deriving DecidableEq

/-- The external read-only filesystem metadata consulted by the resolver:
file contents (`android::base::ReadFileToString`), the entries of a
`/sys/block/<name>/slaves` directory, and the `fs::is_block_file` test. -/
structure SysEnv where
  readFile : Str → Option Str
  slaveDirEntries : Str → List Str
  isBlockFile : Str → Bool

/-- `BlockDevice`: holds only the device's name (`loopN`, `dm-N`, ...). -/
structure BlockDevice where
  name : Str
  deriving DecidableEq

/-- The `BlockDevice(path)` constructor: keep the path's filename. -/
def BlockDevice.ofPath (p : Str) : BlockDevice := ⟨filename p⟩

/-- `BlockDevice::GetType`: classify by name pattern. -/
def BlockDevice.GetType (b : BlockDevice) : BlockDeviceType :=
  if strStartsWith "loop".toList b.name then .LoopDevice
  else if strStartsWith "dm-".toList b.name then .DeviceMapperDevice
  else .UnknownDevice

/-- `BlockDevice::SysPath`. -/
def BlockDevice.SysPath (b : BlockDevice) : Str := kSysBlock ++ '/' :: b.name

/-- `BlockDevice::DevPath`. -/
def BlockDevice.DevPath (b : BlockDevice) : Str := kDevBlock ++ '/' :: b.name

/-- `BlockDevice::GetProperty`: read and trim a sysfs attribute file;
errors when the file cannot be read. -/
def BlockDevice.GetProperty (b : BlockDevice) (env : SysEnv) (property : Str) :
    Except Str Str :=
  match env.readFile (b.SysPath ++ '/' :: property) with
  | none => .error "Fail to read".toList
  | some propertyValue => .ok (trim propertyValue)

/-- `BlockDevice::GetSlaves`: walk the `slaves` directory, keeping the
entries whose `/dev/block` node is a block file. -/
def BlockDevice.GetSlaves (b : BlockDevice) (env : SysEnv) : List BlockDevice :=
  (env.slaveDirEntries b.name).filterMap fun entry =>
    let dev := BlockDevice.ofPath entry
    if env.isBlockFile dev.DevPath then some dev else none

/-- The sysfs attribute path `loop/backing_file`. -/
def backingFileProp : Str := "loop/backing_file".toList

/-- The sysfs attribute path `dm/name`. -/
def dmNameProp : Str := "dm/name".toList

/-- `MountedApexData`: one row of the mounted-package database. -/
structure MountedApexData where
  loop_name : Str
  full_path : Str
  mount_point : Str
  device_name : Str
  deriving DecidableEq

/-- `resolveMountInfo`: classify the block device and recover the backing
file (and, for device-mapper devices, the mapping name through the first
slave, which must be a loop device). The device-mapper branch mirrors the
source's `slaves.empty() || slaves[0].GetType() != LoopDevice` check. -/
def resolveMountInfo (env : SysEnv) (block : BlockDevice) (mountPoint : Str) :
    Except Str MountedApexData :=
  match block.GetType with
  | .LoopDevice =>
    match block.GetProperty env backingFileProp with
    | .error e => .error e
    | .ok backingFile => .ok ⟨block.DevPath, backingFile, mountPoint, []⟩
  | .DeviceMapperDevice =>
    match block.GetProperty env dmNameProp with
    | .error e => .error e
    | .ok nm =>
      match block.GetSlaves env with
      | [] => .error "DeviceMapper device with no loop devices".toList
      | slave :: _ =>
        if slave.GetType ≠ BlockDeviceType.LoopDevice then
          .error "DeviceMapper device with no loop devices".toList
        else
          match slave.GetProperty env backingFileProp with
          | .error e => .error e
          | .ok backingFile => .ok ⟨slave.DevPath, backingFile, mountPoint, nm⟩
  | .UnknownDevice => .error ("Cannot resolve ".toList ++ block.DevPath)

/-- Modelled from the spec: the `MountedApexDatabase` container itself lives
in `apex_database.h`, which is not among the provided sources; per the spec
it is a registry of mounted instances keyed by package name, each record
carrying a single "active"/latest flag. -/
structure MountedApexDatabase where
  records : List (Str × MountedApexData × Bool)
  deriving DecidableEq

/-- Modelled from the spec: `addRecord(name, isActive, record)` /
`AddMountedApex` inserts one instance record with the given active flag. -/
def MountedApexDatabase.AddMountedApex (db : MountedApexDatabase)
    (package : Str) (latest : Bool) (d : MountedApexData) : MountedApexDatabase :=
  ⟨db.records ++ [(package, d, latest)]⟩

/-- Modelled from the spec: helper for `setActiveInstance` — the first record
of `package` whose backing path matches becomes active, every other record
of `package` is demoted; records of other packages are untouched. -/
def setLatestAux (package fullPath : Str) :
    List (Str × MountedApexData × Bool) → Bool → List (Str × MountedApexData × Bool)
  | [], _ => []
  | (n, d, a) :: rest, found =>
    if n = package then
      if found = false ∧ d.full_path = fullPath then
        (n, d, true) :: setLatestAux package fullPath rest true
      else
        (n, d, false) :: setLatestAux package fullPath rest found
    else
      (n, d, a) :: setLatestAux package fullPath rest found

/-- Modelled from the spec: `setActiveInstance(name, path)` / `SetLatest`
marks the named package's instance with the given backing path active,
demoting any previously active instance for that name. -/
def MountedApexDatabase.SetLatest (db : MountedApexDatabase)
    (package fullPath : Str) : MountedApexDatabase :=
  ⟨setLatestAux package fullPath db.records false⟩

/-- Number of records of `package` flagged active. -/
def activeCount (db : MountedApexDatabase) (package : Str) : Nat :=
  db.records.countP fun r => decide (r.1 = package) && r.2.2

/-- The database invariant: at most one active record per package name. -/
def AtMostOneActive (db : MountedApexDatabase) : Prop :=
  ∀ package : Str, activeCount db package ≤ 1

/-- State threaded through the `PopulateFromMounts` scan: the database, the
local `activeVersions` map, and (for specification purposes) the trace of
`SetLatest` invocations in the order they were made. -/
structure ScanState where
  db : MountedApexDatabase
  activeVersions : List (Str × Int)
  setLatestCalls : List (Str × Str)
  deriving DecidableEq

/-- `activeVersions[package]`: lookup with the `unordered_map` default 0. -/
def avLookup (av : List (Str × Int)) (package : Str) : Int :=
  match av.find? (fun e => decide (e.1 = package)) with
  | some e => e.2
  | none => 0

/-- The body of the `while (std::getline(...))` loop of
`MountedApexDatabase::PopulateFromMounts`, for one line of `/proc/mounts`. -/
def processLine (env : SysEnv) (st : ScanState) (line : Str) : ScanState :=
  let bm := parseMountInfo line
  if parentPath bm.2 ≠ kApexRoot then st
  else if isActiveMountPoint bm.2 then st
  else
    match resolveMountInfo env (BlockDevice.ofPath bm.1) bm.2 with
    | .error _ => st
    | .ok mountData =>
      let pv := parseMountPoint bm.2
      let db1 := st.db.AddMountedApex pv.1 false mountData
      if avLookup st.activeVersions pv.1 < pv.2 then
        { db := db1.SetLatest pv.1 mountData.full_path,
          activeVersions := (pv.1, pv.2) :: st.activeVersions,
          setLatestCalls := st.setLatestCalls ++ [(pv.1, mountData.full_path)] }
      else { st with db := db1 }

/-- Fold of `processLine` over a list of mount-table lines. -/
def scanFold (env : SysEnv) (st : ScanState) (lines : List Str) : ScanState :=
  lines.foldl (processLine env) st

/-- `MountedApexDatabase::PopulateFromMounts`, with the contents of
`/proc/mounts` passed in as a list of lines. -/
def MountedApexDatabase.PopulateFromMounts (db : MountedApexDatabase)
    (env : SysEnv) (procMounts : List Str) : ScanState :=
  scanFold env ⟨db, [], []⟩ procMounts

/-- The per-line outcome of the scan's filter-resolve-parse pipeline:
`none` when the line is skipped, otherwise the package, parsed version and
resolved mount data it contributes. -/
def lineEntry (env : SysEnv) (line : Str) : Option (Str × Int × MountedApexData) :=
  let bm := parseMountInfo line
  if parentPath bm.2 ≠ kApexRoot then none
  else if isActiveMountPoint bm.2 then none
  else
    match resolveMountInfo env (BlockDevice.ofPath bm.1) bm.2 with
    | .error _ => none
    | .ok mountData => some ((parseMountPoint bm.2).1, (parseMountPoint bm.2).2, mountData)

/-- The state update performed for a non-skipped line. -/
def stepEntry (st : ScanState) (p : Str) (v : Int) (d : MountedApexData) : ScanState :=
  let db1 := st.db.AddMountedApex p false d
  if avLookup st.activeVersions p < v then
    { db := db1.SetLatest p d.full_path,
      activeVersions := (p, v) :: st.activeVersions,
      setLatestCalls := st.setLatestCalls ++ [(p, d.full_path)] }
  else { st with db := db1 }

/-- All non-skipped entries of a scan, in order. -/
def lineEntries (env : SysEnv) (lines : List Str) : List (Str × Int × MountedApexData) :=
  lines.filterMap (lineEntry env)

/-- The `(version, backing path)` pairs the scan sees for one package. -/
def entriesFor (env : SysEnv) (p : Str) (lines : List Str) : List (Int × Str) :=
  (lineEntries env lines).filterMap fun e =>
    if e.1 = p then some (e.2.1, e.2.2.full_path) else none

/-- The argument of the most recent `SetLatest` call for package `p`. -/
def lastCallFor (p : Str) (calls : List (Str × Str)) : Option Str :=
  ((calls.filter fun c => decide (c.1 = p)).getLast?).map Prod.snd

/-- Per-package abstraction of the scan: running highest version and the
argument of the latest `SetLatest` call. -/
def simulate : Int → Option Str → List (Int × Str) → Int × Option Str
  | cur, last, [] => (cur, last)
  | cur, last, (v, f) :: rest =>
    if cur < v then simulate v (some f) rest else simulate cur last rest

/-- The fields of `ApexManifest` relevant to this core: `name` and the
64-bit `version` from the protobuf message. -/
structure ApexManifest where
  name : Str
  version : Int
  deriving DecidableEq

/-- `GetPackageId`: `name() + "@" + std::to_string(version())`. -/
def GetPackageId (m : ApexManifest) : Str :=
  m.name ++ '@' :: intToDecimal m.version

/-- `JsonToApexManifestMessage`, with the external protobuf JSON decoder
passed in as `jsonParse`. -/
def JsonToApexManifestMessage (jsonParse : Str → Option ApexManifest)
    (content : Str) : Except Str ApexManifest :=
  match jsonParse content with
  | none => .error "Failed to parse APEX Manifest JSON config".toList
  | some m => .ok m

/-- `ParseManifestJson`: decode, then verify the required fields. -/
def ParseManifestJson (jsonParse : Str → Option ApexManifest)
    (content : Str) : Except Str ApexManifest :=
  match JsonToApexManifestMessage jsonParse content with
  | .error e => .error e
  | .ok apex_manifest =>
    if apex_manifest.name = [] then
      .error "Missing required field name from APEX manifest".toList
    else if apex_manifest.version = 0 then
      .error "Missing required field version from APEX manifest".toList
    else .ok apex_manifest

/-- `ParseManifest`: binary-protobuf decode (external, passed in as
`protoParse`), then verify the required fields. -/
def ParseManifest (protoParse : Str → Option ApexManifest)
    (content : Str) : Except Str ApexManifest :=
  match protoParse content with
  | none => .error "Cannot parse APEX manifest".toList
  | some apex_manifest =>
    if apex_manifest.name = [] then
      .error "Missing required field name from APEX manifest".toList
    else if apex_manifest.version = 0 then
      .error "Missing required field version from APEX manifest".toList
    else .ok apex_manifest

/-- A trivial metadata environment: nothing readable, no slaves. -/
def envTriv : SysEnv :=
  { readFile := fun _ => none,
    slaveDirEntries := fun _ => [],
    isBlockFile := fun _ => false }

/-- Environment with `loop0` backed by `/data/a.img`. -/
def envLoopA : SysEnv :=
  { readFile := fun p =>
      if p = "/sys/block/loop0/loop/backing_file".toList then some "/data/a.img".toList
      else none,
    slaveDirEntries := fun _ => [],
    isBlockFile := fun _ => false }

/-- A mount line for `com.a` version 2 on `loop0`. -/
def lineA2 : Str := "/dev/block/loop0 /apex/com.a@2 ext4 ro 0 0".toList

/-- A mount line for `com.x` with parsed version 0 on `loop0`. -/
def lineX0 : Str := "/dev/block/loop0 /apex/com.x@0 ext4 ro 0 0".toList

/-- Environment of the C6 scenario: `loop0` backed by `/data/d.img`. -/
def envD : SysEnv :=
  { readFile := fun p =>
      if p = "/sys/block/loop0/loop/backing_file".toList then some "/data/d.img".toList
      else none,
    slaveDirEntries := fun _ => [],
    isBlockFile := fun _ => false }

/-- The C6 scenario's mount line: `com.d` version 2 on `loop0`. -/
def lineD2 : Str := "/dev/block/loop0 /apex/com.d@2 ext4 ro 0 0".toList

/-- A mount line whose device `loop5` has no readable metadata in `envD`. -/
def lineE1 : Str := "/dev/block/loop5 /apex/com.e@1 ext4 ro 0 0".toList

/-- A mount line at the canonical (version-less) path `/apex/com.a`. -/
def lineCanon : Str := "/dev/block/loop0 /apex/com.a ext4 ro 0 0".toList

/-- An empty scan state over an empty database. -/
def stTriv : ScanState := ⟨⟨[]⟩, [], []⟩

/-- Device-mapper environment: `dm-0` is named `com.v` and its slave
directory lists `sda` before `loop1`; `loop1` has a readable backing file. -/
def envDmSda : SysEnv :=
  { readFile := fun p =>
      if p = "/sys/block/dm-0/dm/name".toList then some "com.v".toList
      else if p = "/sys/block/loop1/loop/backing_file".toList then some "/data/v.img".toList
      else none,
    slaveDirEntries := fun n => if n = "dm-0".toList then ["sda".toList, "loop1".toList] else [],
    isBlockFile := fun _ => true }

/-- Device-mapper environment: `dm-1` has a single loop slave `loop2` with a
readable backing file, but its `dm/name` attribute is unreadable. -/
def envDmNoName : SysEnv :=
  { readFile := fun p =>
      if p = "/sys/block/loop2/loop/backing_file".toList then some "/data/w.img".toList
      else none,
    slaveDirEntries := fun n => if n = "dm-1".toList then ["loop2".toList] else [],
    isBlockFile := fun _ => true }

/-- Device-mapper environment: `dm-2` named `com.m`, single slave `loop3`
backed by `/data/m.img`. -/
def envDmOk : SysEnv :=
  { readFile := fun p =>
      if p = "/sys/block/dm-2/dm/name".toList then some "com.m".toList
      else if p = "/sys/block/loop3/loop/backing_file".toList then some "/data/m.img".toList
      else none,
    slaveDirEntries := fun n => if n = "dm-2".toList then ["loop3".toList] else [],
    isBlockFile := fun _ => true }

/-! ### Database invariant lemmas -/

theorem activeCount_AddMountedApex (db : MountedApexDatabase) (p : Str)
    (d : MountedApexData) (q : Str) :
    activeCount (db.AddMountedApex p false d) q = activeCount db q := by
  simp [activeCount, MountedApexDatabase.AddMountedApex, List.countP_append,
    List.countP_cons]

theorem countP_setLatestAux_ne (p f q : Str) (hq : q ≠ p) :
    ∀ (l : List (Str × MountedApexData × Bool)) (found : Bool),
      (setLatestAux p f l found).countP (fun r => decide (r.1 = q) && r.2.2) =
        l.countP (fun r => decide (r.1 = q) && r.2.2) := by
  intro l
  induction l with
  | nil => intro _; rfl
  | cons hd tl ih =>
    intro found
    obtain ⟨n, d, a⟩ := hd
    by_cases hn : n = p
    · subst hn
      have hnq : ¬(n = q) := fun h => hq h.symm
      by_cases hc : found = false ∧ d.full_path = f
      · simp [setLatestAux, hc, List.countP_cons, ih, hnq]
      · simp [setLatestAux, hc, List.countP_cons, ih, hnq]
    · simp [setLatestAux, hn, List.countP_cons, ih]

theorem countP_setLatestAux_found (p f : Str) :
    ∀ l : List (Str × MountedApexData × Bool),
      (setLatestAux p f l true).countP (fun r => decide (r.1 = p) && r.2.2) = 0 := by
  intro l
  induction l with
  | nil => rfl
  | cons hd tl ih =>
    obtain ⟨n, d, a⟩ := hd
    by_cases hn : n = p
    · subst hn
      simp [setLatestAux, List.countP_cons, ih]
    · simp [setLatestAux, hn, List.countP_cons, ih]

theorem countP_setLatestAux_le (p f : Str) :
    ∀ l : List (Str × MountedApexData × Bool),
      (setLatestAux p f l false).countP (fun r => decide (r.1 = p) && r.2.2) ≤ 1 := by
  intro l
  induction l with
  | nil => simp [setLatestAux]
  | cons hd tl ih =>
    obtain ⟨n, d, a⟩ := hd
    by_cases hn : n = p
    · subst hn
      by_cases hc : d.full_path = f
      · simp [setLatestAux, hc, List.countP_cons, countP_setLatestAux_found]
      · simp [setLatestAux, hc, List.countP_cons, ih]
    · simp [setLatestAux, hn, List.countP_cons, ih]

theorem setLatestAux_active_path (p f : Str) :
    ∀ (l : List (Str × MountedApexData × Bool)) (found : Bool)
      (r : Str × MountedApexData × Bool), r ∈ setLatestAux p f l found →
      r.1 = p → r.2.2 = true → r.2.1.full_path = f := by
  intro l
  induction l with
  | nil => intro found r hr; simp [setLatestAux] at hr
  | cons hd tl ih =>
    intro found r hr hrp hract
    obtain ⟨n, d, a⟩ := hd
    by_cases hn : n = p
    · subst hn
      by_cases hc : found = false ∧ d.full_path = f
      · rw [setLatestAux, if_pos rfl, if_pos hc] at hr
        rcases List.mem_cons.mp hr with h | h
        · subst h; exact hc.2
        · exact ih true r h hrp hract
      · rw [setLatestAux, if_pos rfl, if_neg hc] at hr
        rcases List.mem_cons.mp hr with h | h
        · subst h; simp at hract
        · exact ih found r h hrp hract
    · rw [setLatestAux, if_neg hn] at hr
      rcases List.mem_cons.mp hr with h | h
      · subst h; exact absurd hrp hn
      · exact ih found r h hrp hract

theorem atMostOne_SetLatest (db : MountedApexDatabase) (p f : Str)
    (h : AtMostOneActive db) : AtMostOneActive (db.SetLatest p f) := by
  intro q
  by_cases hq : q = p
  · subst hq
    exact countP_setLatestAux_le q f db.records
  · show (setLatestAux p f db.records false).countP _ ≤ 1
    rw [countP_setLatestAux_ne p f q hq]
    exact h q

theorem atMostOne_AddMountedApex (db : MountedApexDatabase) (p : Str)
    (d : MountedApexData) (h : AtMostOneActive db) :
    AtMostOneActive (db.AddMountedApex p false d) := by
  intro q
  rw [activeCount_AddMountedApex]
  exact h q

theorem atMostOne_processLine (env : SysEnv) (st : ScanState) (line : Str)
    (h : AtMostOneActive st.db) : AtMostOneActive (processLine env st line).db := by
  simp only [processLine]
  split
  · exact h
  · split
    · exact h
    · split
      · exact h
      · split
        · exact atMostOne_SetLatest _ _ _ (atMostOne_AddMountedApex _ _ _ h)
        · exact atMostOne_AddMountedApex _ _ _ h

theorem atMostOne_scanFold (env : SysEnv) (lines : List Str) :
    ∀ st : ScanState, AtMostOneActive st.db →
      AtMostOneActive (scanFold env st lines).db := by
  induction lines with
  | nil => intro st h; exact h
  | cons line rest ih =>
    intro st h
    exact ih (processLine env st line) (atMostOne_processLine env st line h)

/-! ### Skip lemmas for the scan -/

theorem scan_skip_middle (env : SysEnv) (db₀ : MountedApexDatabase)
    (l1 l2 : List Str) (line : Str)
    (h : ∀ st : ScanState, processLine env st line = st) :
    db₀.PopulateFromMounts env (l1 ++ line :: l2) =
      db₀.PopulateFromMounts env (l1 ++ l2) := by
  unfold MountedApexDatabase.PopulateFromMounts scanFold
  rw [List.foldl_append, List.foldl_append, List.foldl_cons, h]

theorem processLine_skip_filter (env : SysEnv) (st : ScanState) (line : Str)
    (h : parentPath (parseMountInfo line).2 ≠ kApexRoot ∨
      isActiveMountPoint (parseMountInfo line).2 = true) :
    processLine env st line = st := by
  simp only [processLine]
  by_cases h1 : parentPath (parseMountInfo line).2 ≠ kApexRoot
  · rw [if_pos h1]
  · rcases h with h | h
    · exact absurd h h1
    · rw [if_neg h1, if_pos h]

theorem processLine_skip_unresolved (env : SysEnv) (st : ScanState) (line : Str)
    (err : Str)
    (h : resolveMountInfo env (BlockDevice.ofPath (parseMountInfo line).1)
        (parseMountInfo line).2 = .error err) :
    processLine env st line = st := by
  simp only [processLine]
  by_cases h1 : parentPath (parseMountInfo line).2 ≠ kApexRoot
  · rw [if_pos h1]
  · rw [if_neg h1]
    by_cases h2 : isActiveMountPoint (parseMountInfo line).2 = true
    · rw [if_pos h2]
    · rw [if_neg h2, h]

theorem processLine_eq_entry (env : SysEnv) (st : ScanState) (line : Str) :
    processLine env st line =
      match lineEntry env line with
      | none => st
      | some e => stepEntry st e.1 e.2.1 e.2.2 := by
  simp only [processLine, lineEntry, stepEntry]
  by_cases h1 : parentPath (parseMountInfo line).2 ≠ kApexRoot
  · rw [if_pos h1, if_pos h1]
  · rw [if_neg h1, if_neg h1]
    by_cases h2 : isActiveMountPoint (parseMountInfo line).2 = true
    · rw [if_pos h2, if_pos h2]
    · rw [if_neg h2, if_neg h2]
      cases hres : resolveMountInfo env (BlockDevice.ofPath (parseMountInfo line).1)
          (parseMountInfo line).2 with
      | error e => rfl
      | ok d => rfl

/-! ### `activeVersions` and call-trace lemmas -/

theorem avLookup_cons_self (av : List (Str × Int)) (p : Str) (v : Int) :
    avLookup ((p, v) :: av) p = v := by
  simp [avLookup, List.find?]

theorem avLookup_cons_ne (av : List (Str × Int)) (p q : Str) (v : Int)
    (h : q ≠ p) : avLookup ((p, v) :: av) q = avLookup av q := by
  have : ¬(p = q) := fun hh => h hh.symm
  simp [avLookup, List.find?, this]

theorem lastCallFor_append_self (p f : Str) (calls : List (Str × Str)) :
    lastCallFor p (calls ++ [(p, f)]) = some f := by
  simp [lastCallFor, List.filter_append]

theorem lastCallFor_append_ne (p q f : Str) (calls : List (Str × Str))
    (h : q ≠ p) : lastCallFor q (calls ++ [(p, f)]) = lastCallFor q calls := by
  have : ¬(p = q) := fun hh => h hh.symm
  simp [lastCallFor, List.filter_append, this]

/-! ### Per-package abstraction of the scan -/

theorem simulate_stay (es : List (Int × Str)) (cur : Int) (last : Option Str)
    (h : ∀ e ∈ es, e.1 ≤ cur) : simulate cur last es = (cur, last) := by
  induction es with
  | nil => rfl
  | cons e rest ih =>
    obtain ⟨v, f⟩ := e
    have hv : v ≤ cur := h (v, f) (List.mem_cons_self _ _)
    rw [simulate, if_neg (by omega)]
    exact ih fun e he => h e (List.mem_cons_of_mem _ he)

theorem simulate_max (es : List (Int × Str)) (v : Int) (f : Str)
    (hmem : (v, f) ∈ es)
    (hmax : ∀ e ∈ es, e.1 ≤ v ∧ (e.1 = v → e.2 = f)) :
    ∀ (cur : Int) (last : Option Str), cur < v →
      simulate cur last es = (v, some f) := by
  induction es with
  | nil => simp at hmem
  | cons e rest ih =>
    intro cur last hcur
    obtain ⟨v1, f1⟩ := e
    have h1 := hmax (v1, f1) (List.mem_cons_self _ _)
    by_cases hlt : cur < v1
    · rw [simulate, if_pos hlt]
      by_cases hv1 : v1 = v
      · have hf1 : f1 = f := h1.2 hv1
        subst hv1; subst hf1
        exact simulate_stay rest v1 (some f1)
          fun e he => (hmax e (List.mem_cons_of_mem _ he)).1
      · have hmem' : (v, f) ∈ rest := by
          rcases List.mem_cons.mp hmem with h | h
          · exact absurd (congrArg Prod.fst h).symm hv1
          · exact h
        have hv1v : v1 < v := lt_of_le_of_ne h1.1 hv1
        exact ih hmem' (fun e he => hmax e (List.mem_cons_of_mem _ he)) v1 (some f1) hv1v
    · rw [simulate, if_neg hlt]
      have hmem' : (v, f) ∈ rest := by
        rcases List.mem_cons.mp hmem with h | h
        · have : v1 = v := (congrArg Prod.fst h).symm
          omega
        · exact h
      exact ih hmem' (fun e he => hmax e (List.mem_cons_of_mem _ he)) cur last hcur

theorem scan_proj (env : SysEnv) (q : Str) :
    ∀ (lines : List Str) (st : ScanState),
      (avLookup (scanFold env st lines).activeVersions q,
        lastCallFor q (scanFold env st lines).setLatestCalls) =
      simulate (avLookup st.activeVersions q) (lastCallFor q st.setLatestCalls)
        (entriesFor env q lines) := by
  intro lines
  induction lines with
  | nil => intro st; simp [scanFold, entriesFor, lineEntries, simulate]
  | cons line rest ih =>
    intro st
    have hfold : scanFold env st (line :: rest) =
        scanFold env (processLine env st line) rest := rfl
    rw [hfold]
    cases hle : lineEntry env line with
    | none =>
      have hpl : processLine env st line = st := by
        rw [processLine_eq_entry, hle]
      have hent : entriesFor env q (line :: rest) = entriesFor env q rest := by
        simp [entriesFor, lineEntries, List.filterMap_cons, hle]
      rw [hpl, hent]
      exact ih st
    | some e =>
      obtain ⟨p, v, d⟩ := e
      have hpl : processLine env st line = stepEntry st p v d := by
        rw [processLine_eq_entry, hle]
      rw [hpl]
      by_cases hpq : p = q
      · subst hpq
        have hent : entriesFor env p (line :: rest) =
            (v, d.full_path) :: entriesFor env p rest := by
          simp [entriesFor, lineEntries, List.filterMap_cons, hle]
        rw [hent]
        by_cases hlt : avLookup st.activeVersions p < v
        · rw [simulate, if_pos hlt]
          have hst : stepEntry st p v d =
              { db := (st.db.AddMountedApex p false d).SetLatest p d.full_path,
                activeVersions := (p, v) :: st.activeVersions,
                setLatestCalls := st.setLatestCalls ++ [(p, d.full_path)] } := by
            rw [stepEntry, if_pos hlt]
          rw [hst, ih]
          simp only [avLookup_cons_self, lastCallFor_append_self]
        · rw [simulate, if_neg hlt]
          have hst : stepEntry st p v d = { st with db := st.db.AddMountedApex p false d } := by
            rw [stepEntry, if_neg hlt]
          rw [hst, ih]
      · have hent : entriesFor env q (line :: rest) = entriesFor env q rest := by
          simp [entriesFor, lineEntries, List.filterMap_cons, hle, hpq]
        rw [hent]
        by_cases hlt : avLookup st.activeVersions p < v
        · have hst : stepEntry st p v d =
              { db := (st.db.AddMountedApex p false d).SetLatest p d.full_path,
                activeVersions := (p, v) :: st.activeVersions,
                setLatestCalls := st.setLatestCalls ++ [(p, d.full_path)] } := by
            rw [stepEntry, if_pos hlt]
          rw [hst, ih]
          simp only [avLookup_cons_ne _ _ _ _ (fun h => hpq h.symm),
            lastCallFor_append_ne _ _ _ _ (fun h => hpq h.symm)]
        · have hst : stepEntry st p v d = { st with db := st.db.AddMountedApex p false d } := by
            rw [stepEntry, if_neg hlt]
          rw [hst, ih]

/-! ### Decimal digits and `ParseInt` round-trip lemmas -/

theorem digitChar_props (m : Nat) (h : m < 10) :
    (Nat.digitChar m).toNat = 48 + m ∧ (Nat.digitChar m).isDigit = true ∧
    isSpaceChar (Nat.digitChar m) = false ∧ Nat.digitChar m ≠ '@' ∧
    Nat.digitChar m ≠ '-' ∧ Nat.digitChar m ≠ '+' := by
  interval_cases m <;> decide

theorem natDigits_ne_nil (n : Nat) : natDigits n ≠ [] := by
  rw [natDigits]
  split <;> simp

theorem natDigits_mem (n : Nat) : ∀ c ∈ natDigits n, ∃ m, m < 10 ∧ c = Nat.digitChar m := by
  induction n using Nat.strong_induction_on with
  | _ n ih =>
    intro c hc
    rw [natDigits] at hc
    split at hc
    · next h =>
      simp only [List.mem_singleton] at hc
      exact ⟨n, h, hc⟩
    · next h =>
      rcases List.mem_append.mp hc with h1 | h1
      · exact ih (n / 10) (Nat.div_lt_self (by omega) (by omega)) c h1
      · simp only [List.mem_singleton] at h1
        exact ⟨n % 10, Nat.mod_lt _ (by omega), h1⟩

theorem decVal_append_digit (l : Str) (c : Char) :
    decVal (l ++ [c]) = decVal l * 10 + (c.toNat - 48) := by
  simp [decVal, List.foldl_append]

theorem decVal_natDigits (n : Nat) : decVal (natDigits n) = n := by
  induction n using Nat.strong_induction_on with
  | _ n ih =>
    rw [natDigits]
    split
    · next h =>
      have hd := (digitChar_props n h).1
      simp only [decVal, List.foldl_cons, List.foldl_nil]
      omega
    · next h =>
      rw [decVal_append_digit, ih (n / 10) (Nat.div_lt_self (by omega) (by omega))]
      have h10 : n % 10 < 10 := Nat.mod_lt _ (by omega)
      have hd := (digitChar_props (n % 10) h10).1
      omega

theorem parseIntCpp_natDigits (n : Nat) (h : n ≤ 2147483647) :
    parseIntCpp (natDigits n) = some (Int.ofNat n) := by
  obtain ⟨c, t, hct⟩ := List.exists_cons_of_ne_nil (natDigits_ne_nil n)
  have hcmem : c ∈ natDigits n := by rw [hct]; exact List.mem_cons_self _ _
  obtain ⟨m, hm, hcm⟩ := natDigits_mem n c hcmem
  have props := digitChar_props m hm
  have hnospace : isSpaceChar c = false := by rw [hcm]; exact props.2.2.1
  have hcneg : c ≠ '-' := by rw [hcm]; exact props.2.2.2.2.1
  have hcplus : c ≠ '+' := by rw [hcm]; exact props.2.2.2.2.2
  have hdrop : (natDigits n).dropWhile isSpaceChar = natDigits n := by
    rw [hct, List.dropWhile_cons, hnospace]
    simp
  have hall : (natDigits n).all Char.isDigit = true := by
    rw [List.all_eq_true]
    intro x hx
    obtain ⟨m', hm', hxm⟩ := natDigits_mem n x hx
    rw [hxm]
    exact (digitChar_props m' hm').2.1
  have hhead : (natDigits n).head? = some c := by rw [hct]; rfl
  have hsign : (some c = some '-' ∨ some c = some '+') ↔ False := by
    simp [hcneg, hcplus]
  simp only [parseIntCpp, hdrop, hhead, hsign, if_false, decVal_natDigits]
  have hnegf : (decide (some c = some '-')) = false := by simp [hcneg]
  simp only [hnegf, Bool.false_eq_true, if_false]
  rw [if_neg (natDigits_ne_nil n), if_pos hall]
  have hr1 : (-2147483648 : Int) ≤ Int.ofNat n :=
    le_trans (by norm_num) (Int.ofNat_nonneg n)
  have hr2 : Int.ofNat n ≤ 2147483647 := Int.ofNat_le.mpr h
  rw [if_pos ⟨hr1, hr2⟩]

/-! ### `Split` lemmas -/

theorem splitOnChar_ne_nil (d : Char) (s : Str) : splitOnChar d s ≠ [] := by
  induction s with
  | nil => simp [splitOnChar]
  | cons c t ih =>
    rw [splitOnChar]
    by_cases hc : c = d
    · simp [hc]
    · rw [if_neg hc]
      cases h : splitOnChar d t with
      | nil => simp
      | cons a as => simp

theorem splitOnChar_not_mem (d : Char) (s : Str) (h : d ∉ s) :
    splitOnChar d s = [s] := by
  induction s with
  | nil => rfl
  | cons c t ih =>
    have h1 : ¬(d = c) ∧ d ∉ t := by simpa [List.mem_cons] using h
    have hc : ¬(c = d) := fun hh => h1.1 hh.symm
    rw [splitOnChar, if_neg hc, ih h1.2]

theorem splitOnChar_sandwich (d : Char) (a b : Str) (ha : d ∉ a) (hb : d ∉ b) :
    splitOnChar d (a ++ d :: b) = [a, b] := by
  induction a with
  | nil =>
    simp only [List.nil_append]
    rw [splitOnChar, if_pos rfl, splitOnChar_not_mem d b hb]
  | cons c t ih =>
    have h1 : ¬(d = c) ∧ d ∉ t := by simpa [List.mem_cons] using ha
    have hc : ¬(c = d) := fun hh => h1.1 hh.symm
    rw [List.cons_append, splitOnChar, if_neg hc, ih h1.2]

theorem splitOnChar_length (d : Char) (s : Str) :
    (splitOnChar d s).length = s.count d + 1 := by
  induction s with
  | nil => simp [splitOnChar]
  | cons c t ih =>
    rw [splitOnChar]
    by_cases hc : c = d
    · subst hc
      rw [if_pos rfl, List.length_cons, ih]
      simp [List.count_cons]
    · rw [if_neg hc]
      obtain ⟨a, as, has⟩ := List.exists_cons_of_ne_nil (splitOnChar_ne_nil d t)
      rw [has]
      have h2 : as.length + 1 = t.count d + 1 := by rw [← ih, has]; rfl
      rw [List.length_cons, List.count_cons]
      simp [hc, Ne.symm hc]
      omega

/-! ### Claim theorems -/

/-- C1: at every observation point of the startup mount-table scan (after
processing any prefix of the mount table, starting from a database
satisfying the invariant) the database holds at most one record flagged
active per package name; and `SetLatest` (`setActiveInstance`) demotes any
previously active instance: after the call, an active record for the named
package can only carry the chosen backing path. -/
theorem c1_at_most_one_active (env : SysEnv) (db₀ : MountedApexDatabase)
    (lines : List Str) (k : Nat) (h : AtMostOneActive db₀) :
    AtMostOneActive ((db₀.PopulateFromMounts env (lines.take k)).db) ∧
    ∀ (db : MountedApexDatabase) (p f : Str),
      ∀ r ∈ (db.SetLatest p f).records, r.1 = p → r.2.2 = true →
        r.2.1.full_path = f := by
  constructor
  · exact atMostOne_scanFold env (lines.take k) ⟨db₀, [], []⟩ h
  · intro db p f r hr hrp hract
    exact setLatestAux_active_path p f db.records false r hr hrp hract

/-- Witness for C1: the invariant holds after scanning a concrete one-line
mount table from the empty database. -/
theorem c1_at_most_one_active_witness :
    AtMostOneActive (((MountedApexDatabase.mk []).PopulateFromMounts envLoopA
      ([lineA2].take 1)).db) ∧
    ∀ (db : MountedApexDatabase) (p f : Str),
      ∀ r ∈ (db.SetLatest p f).records, r.1 = p → r.2.2 = true →
        r.2.1.full_path = f :=
  c1_at_most_one_active envLoopA ⟨[]⟩ [lineA2] 1
    (by intro p; simp [activeCount])

/-- C5: a mount-table line whose mount point's parent directory is not the
package root, or which sits at a canonical (`'@'`-free) path, changes
nothing: the scan step leaves the state untouched (no record, no
`SetLatest` call), and the whole scan result is as if the line were absent. -/
theorem c5_scan_filters (env : SysEnv) (db₀ : MountedApexDatabase)
    (st : ScanState) (l1 l2 : List Str) (line : Str)
    (h : parentPath (parseMountInfo line).2 ≠ kApexRoot ∨
      isActiveMountPoint (parseMountInfo line).2 = true) :
    processLine env st line = st ∧
    db₀.PopulateFromMounts env (l1 ++ line :: l2) =
      db₀.PopulateFromMounts env (l1 ++ l2) := by
  refine ⟨processLine_skip_filter env st line h, ?_⟩
  exact scan_skip_middle env db₀ l1 l2 line
    (fun st' => processLine_skip_filter env st' line h)

/-- Witness for C5 at a canonical-path mount line. -/
theorem c5_scan_filters_witness :
    processLine envTriv stTriv lineCanon = stTriv ∧
    (MountedApexDatabase.mk []).PopulateFromMounts envTriv ([] ++ lineCanon :: []) =
      (MountedApexDatabase.mk []).PopulateFromMounts envTriv ([] ++ []) :=
  c5_scan_filters envTriv ⟨[]⟩ stTriv [] [] lineCanon (Or.inr (by decide))

/-- C6: scanning the single mount line for a loop-backed mount at
`/apex/com.d@2` whose loop device is backed by `/data/d.img` produces
exactly one record, for `com.d`, with that backing file, flagged active. -/
theorem c6_scenario :
    ((MountedApexDatabase.mk []).PopulateFromMounts envD [lineD2]).db.records =
      [("com.d".toList,
        ⟨"/dev/block/loop0".toList, "/data/d.img".toList, "/apex/com.d@2".toList, []⟩,
        true)] := by
  decide

/-- C7: a mount-table line whose block device does not resolve is skipped
without aborting the scan: the step leaves the state untouched, and the
scan of any table containing the line equals the scan with the line
removed (every other entry is still processed); the scan itself is total
and never propagates the per-mount error. -/
theorem c7_unresolvable_skipped (env : SysEnv) (db₀ : MountedApexDatabase)
    (st : ScanState) (l1 l2 : List Str) (line err : Str)
    (h : resolveMountInfo env (BlockDevice.ofPath (parseMountInfo line).1)
        (parseMountInfo line).2 = .error err) :
    processLine env st line = st ∧
    db₀.PopulateFromMounts env (l1 ++ line :: l2) =
      db₀.PopulateFromMounts env (l1 ++ l2) := by
  refine ⟨processLine_skip_unresolved env st line err h, ?_⟩
  exact scan_skip_middle env db₀ l1 l2 line
    (fun st' => processLine_skip_unresolved env st' line err h)

/-- Witness for C7: a line on unreadable `loop5` is dropped while the
`com.d` line around it is still recorded. -/
theorem c7_unresolvable_skipped_witness :
    processLine envD stTriv lineE1 = stTriv ∧
    (MountedApexDatabase.mk []).PopulateFromMounts envD ([] ++ lineE1 :: [lineD2]) =
      (MountedApexDatabase.mk []).PopulateFromMounts envD ([] ++ [lineD2]) :=
  c7_unresolvable_skipped envD ⟨[]⟩ stTriv [] [lineD2] lineE1
    "Fail to read".toList (by rfl)

/-- C8: a loop-type block device with a readable backing-file attribute
resolves to a record holding the device's path, the trimmed attribute
value, the given mount point, and an empty device-mapper name. -/
theorem c8_resolve_loop (env : SysEnv) (block : BlockDevice)
    (mountPoint content : Str)
    (htype : block.GetType = BlockDeviceType.LoopDevice)
    (hread : env.readFile (block.SysPath ++ '/' :: backingFileProp) =
      some content) :
    resolveMountInfo env block mountPoint =
      .ok ⟨block.DevPath, trim content, mountPoint, []⟩ := by
  simp only [resolveMountInfo, htype, BlockDevice.GetProperty, hread]

/-- Witness for C8 on `loop0` in `envD`. -/
theorem c8_resolve_loop_witness :
    resolveMountInfo envD ⟨"loop0".toList⟩ "/apex/com.d@2".toList =
      .ok ⟨(BlockDevice.mk "loop0".toList).DevPath, trim "/data/d.img".toList,
        "/apex/com.d@2".toList, []⟩ :=
  c8_resolve_loop envD ⟨"loop0".toList⟩ "/apex/com.d@2".toList
    "/data/d.img".toList (by decide) (by decide)

/-- C2 counterexample: `dm-0` is integrity-mapped, its `dm/name` attribute
and its loop slave's backing-file attribute are readable, and its slave
list contains a loop-type device (`loop1`) — but because the first listed
slave (`sda`) is not loop-type, resolution fails instead of succeeding. -/
theorem c2_counterexample :
    (BlockDevice.mk "dm-0".toList).GetType = BlockDeviceType.DeviceMapperDevice ∧
    (∃ s ∈ (BlockDevice.mk "dm-0".toList).GetSlaves envDmSda,
      s.GetType = BlockDeviceType.LoopDevice) ∧
    ((BlockDevice.mk "dm-0".toList).GetProperty envDmSda dmNameProp).toOption ≠
      none ∧
    ((BlockDevice.mk "loop1".toList).GetProperty envDmSda
      backingFileProp).toOption ≠ none ∧
    (resolveMountInfo envDmSda ⟨"dm-0".toList⟩ "/apex/com.v@1".toList).toOption =
      none := by
  decide

/-- C2 (amended): for an integrity-mapped device whose `dm/name` attribute
is readable and whose slave list begins with a loop-type device with a
readable backing-file attribute, resolution succeeds and returns that loop
device's path, its backing file, the mount point, and the mapping name. -/
theorem c2_resolve_dm (env : SysEnv) (block : BlockDevice) (mountPoint : Str)
    (nm bf : Str) (slave : BlockDevice) (rest : List BlockDevice)
    (htype : block.GetType = BlockDeviceType.DeviceMapperDevice)
    (hname : block.GetProperty env dmNameProp = .ok nm)
    (hslaves : block.GetSlaves env = slave :: rest)
    (hslave : slave.GetType = BlockDeviceType.LoopDevice)
    (hbf : slave.GetProperty env backingFileProp = .ok bf) :
    resolveMountInfo env block mountPoint =
      .ok ⟨slave.DevPath, bf, mountPoint, nm⟩ := by
  simp only [resolveMountInfo, htype, hname, hslaves]
  rw [if_neg (by simp [hslave])]
  simp only [hbf]

/-- Witness for C2's amended statement on `dm-2` in `envDmOk`. -/
theorem c2_resolve_dm_witness :
    resolveMountInfo envDmOk ⟨"dm-2".toList⟩ "/apex/com.m@1".toList =
      .ok ⟨(BlockDevice.mk "loop3".toList).DevPath, "/data/m.img".toList,
        "/apex/com.m@1".toList, "com.m".toList⟩ :=
  c2_resolve_dm envDmOk ⟨"dm-2".toList⟩ "/apex/com.m@1".toList
    "com.m".toList "/data/m.img".toList ⟨"loop3".toList⟩ []
    (by decide) (by rfl) (by decide) (by decide) (by rfl)

/-- C3 counterexample: `dm-1` is integrity-mapped, every slave is loop-type
with readable backing-file metadata, and the slave list is non-empty — none
of the claim's three failure conditions hold — yet resolution fails,
because the `dm/name` attribute is unreadable (a failure source the claim's
"exactly when" characterization omits). -/
theorem c3_counterexample :
    (resolveMountInfo envDmNoName ⟨"dm-1".toList⟩ "/apex/com.w@1".toList).toOption =
      none ∧
    (BlockDevice.mk "dm-1".toList).GetType = BlockDeviceType.DeviceMapperDevice ∧
    (∃ s ∈ (BlockDevice.mk "dm-1".toList).GetSlaves envDmNoName,
      s.GetType = BlockDeviceType.LoopDevice) ∧
    ∀ s ∈ (BlockDevice.mk "dm-1".toList).GetSlaves envDmNoName,
      (s.GetProperty envDmNoName backingFileProp).toOption ≠ none := by
  decide

/-- C3 (amended): resolution fails exactly when the device's name pattern
is neither loop- nor mapped-type, or it is loop-type with an unreadable
backing-file attribute, or it is mapped-type and its `dm/name` attribute is
unreadable, or its slave list is empty, or the first slave is not
loop-type, or the first slave's backing-file attribute is unreadable. In
particular an integrity-mapped device with an empty slave list resolves to
an error, never to a record with an empty device path. -/
theorem c3_resolve_error_iff (env : SysEnv) (block : BlockDevice)
    (mountPoint : Str) :
    (resolveMountInfo env block mountPoint).toOption = none ↔
      (block.GetType = BlockDeviceType.UnknownDevice ∨
       (block.GetType = BlockDeviceType.LoopDevice ∧
         (block.GetProperty env backingFileProp).toOption = none) ∨
       (block.GetType = BlockDeviceType.DeviceMapperDevice ∧
         ((block.GetProperty env dmNameProp).toOption = none ∨
          block.GetSlaves env = [] ∨
          ∃ s rest, block.GetSlaves env = s :: rest ∧
            (s.GetType ≠ BlockDeviceType.LoopDevice ∨
             (s.GetProperty env backingFileProp).toOption = none)))) := by
  cases htype : block.GetType with
  | UnknownDevice =>
    simp only [resolveMountInfo, htype, Except.toOption]
    simp
  | LoopDevice =>
    cases hbf : block.GetProperty env backingFileProp with
    | error e =>
      simp only [resolveMountInfo, htype, hbf, Except.toOption]
      simp
    | ok bf =>
      simp only [resolveMountInfo, htype, hbf, Except.toOption]
      simp
  | DeviceMapperDevice =>
    cases hnm : block.GetProperty env dmNameProp with
    | error e =>
      simp only [resolveMountInfo, htype, hnm, Except.toOption]
      simp
    | ok nm =>
      cases hs : block.GetSlaves env with
      | nil =>
        simp only [resolveMountInfo, htype, hnm, hs, Except.toOption]
        simp
      | cons s rest =>
        by_cases hst : s.GetType = BlockDeviceType.LoopDevice
        · have hcond : ¬(s.GetType ≠ BlockDeviceType.LoopDevice) := fun hh => hh hst
          rw [resolveMountInfo]
          simp only [htype, hnm, hs, if_neg hcond, Except.toOption]
          cases hbf : s.GetProperty env backingFileProp with
          | error e =>
            simp only [hbf, Except.toOption]
            simp [hst, hbf]
          | ok bf =>
            simp only [hbf, Except.toOption]
            simp [hst, hbf]
        · rw [resolveMountInfo]
          simp only [htype, hnm, hs, if_pos hst, Except.toOption]
          simp [hst]

/-- C4 counterexample: the scanned mount table contains a resolvable
version-qualified instance for `com.x` (parsed version 0, its highest),
yet the scan makes no `SetLatest` call at all. -/
theorem c4_counterexample :
    entriesFor envLoopA "com.x".toList [lineX0] ≠ [] ∧
    ((MountedApexDatabase.mk []).PopulateFromMounts envLoopA
      [lineX0]).setLatestCalls = [] := by
  decide

/-- C4 (amended): for every package whose scanned entries include one with
a positive parsed version, the scan's last `SetLatest` call for that
package passes the backing path of the maximum-version entry (provided all
entries attaining the maximum share that backing path), regardless of the
order of the mount lines; and for a package whose scanned entries all have
non-positive parsed versions, no `SetLatest` call is ever made. -/
theorem c4_highest_version (env : SysEnv) (db₀ : MountedApexDatabase)
    (lines : List Str) (p : Str) (v : Int) (f : Str)
    (hmem : (v, f) ∈ entriesFor env p lines)
    (hmax : ∀ e ∈ entriesFor env p lines, e.1 ≤ v ∧ (e.1 = v → e.2 = f))
    (hpos : 0 < v) :
    lastCallFor p ((db₀.PopulateFromMounts env lines).setLatestCalls) = some f ∧
    ∀ lines' : List Str, (∀ e ∈ entriesFor env p lines', e.1 ≤ 0) →
      lastCallFor p ((db₀.PopulateFromMounts env lines').setLatestCalls) = none := by
  constructor
  · have hsim := simulate_max (entriesFor env p lines) v f hmem hmax 0 none hpos
    have hproj : (avLookup ((db₀.PopulateFromMounts env lines).activeVersions) p,
        lastCallFor p ((db₀.PopulateFromMounts env lines).setLatestCalls)) =
        (v, some f) := by
      rw [MountedApexDatabase.PopulateFromMounts, scan_proj env p lines ⟨db₀, [], []⟩]
      exact hsim
    exact congrArg Prod.snd hproj
  · intro lines' hle
    have hsim := simulate_stay (entriesFor env p lines') 0 none hle
    have hproj : (avLookup ((db₀.PopulateFromMounts env lines').activeVersions) p,
        lastCallFor p ((db₀.PopulateFromMounts env lines').setLatestCalls)) =
        (0, none) := by
      rw [MountedApexDatabase.PopulateFromMounts, scan_proj env p lines' ⟨db₀, [], []⟩]
      exact hsim
    exact congrArg Prod.snd hproj

/-- Witness for C4's amended statement on a one-line table for `com.a@2`. -/
theorem c4_highest_version_witness :
    lastCallFor "com.a".toList (((MountedApexDatabase.mk []).PopulateFromMounts
      envLoopA [lineA2]).setLatestCalls) = some "/data/a.img".toList ∧
    ∀ lines' : List Str,
      (∀ e ∈ entriesFor envLoopA "com.a".toList lines', e.1 ≤ 0) →
      lastCallFor "com.a".toList (((MountedApexDatabase.mk []).PopulateFromMounts
        envLoopA lines').setLatestCalls) = none :=
  c4_highest_version envLoopA ⟨[]⟩ [lineA2] "com.a".toList 2
    "/data/a.img".toList (by decide) (by decide) (by decide)

theorem natDigits_small (m : Nat) (h : m < 10) : natDigits m = [Nat.digitChar m] := by
  rw [natDigits, dif_pos h]

/-- C9: round-trip between package-id formatting and mount-point parsing.
For a manifest with a non-empty, `'@'`-free name and a positive version
within the machine-int range, parsing a mount point whose filename is the
manifest's package id recovers exactly the (name, version) pair; and a
mount-point filename without exactly one `'@'`, or whose suffix after the
`'@'` does not parse as an int, yields version `-1`. -/
theorem c9_package_id_roundtrip (m : ApexManifest) (mp : Str)
    (hname : m.name ≠ []) (hat : '@' ∉ m.name)
    (hpos : 0 < m.version) (hbound : m.version ≤ 2147483647)
    (hfn : filename mp = GetPackageId m) :
    parseMountPoint mp = (m.name, m.version) ∧
    (∀ mp2 : Str, (filename mp2).count '@' ≠ 1 → (parseMountPoint mp2).2 = -1) ∧
    (∀ (mp2 a b : Str), filename mp2 = a ++ '@' :: b → '@' ∉ a → '@' ∉ b →
      parseIntCpp b = none → (parseMountPoint mp2).2 = -1) := by
  have h0 : ¬(m.version < 0) := by omega
  have hdec : intToDecimal m.version = natDigits m.version.toNat := by
    rw [intToDecimal, if_neg h0]
  have hdat : '@' ∉ natDigits m.version.toNat := by
    intro hmem
    obtain ⟨mm, hmm, heq⟩ := natDigits_mem _ _ hmem
    exact (digitChar_props mm hmm).2.2.2.1 heq.symm
  have hsplit : splitOnChar '@' (filename mp) =
      [m.name, natDigits m.version.toNat] := by
    rw [hfn, GetPackageId, hdec]
    exact splitOnChar_sandwich '@' m.name (natDigits m.version.toNat) hat hdat
  have hparse : parseIntCpp (natDigits m.version.toNat) =
      some (Int.ofNat m.version.toNat) := parseIntCpp_natDigits _ (by omega)
  have hcast : Int.ofNat m.version.toNat = m.version :=
    Int.toNat_of_nonneg (le_of_lt hpos)
  refine ⟨?_, ?_, ?_⟩
  · simp only [parseMountPoint, hsplit, hparse, hcast]
  · intro mp2 hcount
    have hlen : (splitOnChar '@' (filename mp2)).length ≠ 2 := by
      rw [splitOnChar_length]
      omega
    simp only [parseMountPoint]
    cases hsp : splitOnChar '@' (filename mp2) with
    | nil => rfl
    | cons a tl =>
      cases tl with
      | nil => rfl
      | cons b tl2 =>
        cases tl2 with
        | nil => exact absurd (by rw [hsp]; rfl) hlen
        | cons c tl3 => rfl
  · intro mp2 a b hfn2 hata hatb hpars
    have hsplit2 : splitOnChar '@' (filename mp2) = [a, b] := by
      rw [hfn2]
      exact splitOnChar_sandwich '@' a b hata hatb
    simp only [parseMountPoint, hsplit2, hpars]

/-- Witness for C9 on the package id `com.a@3`. -/
theorem c9_package_id_roundtrip_witness :
    parseMountPoint "/apex/com.a@3".toList = ("com.a".toList, 3) ∧
    (∀ mp2 : Str, (filename mp2).count '@' ≠ 1 → (parseMountPoint mp2).2 = -1) ∧
    (∀ (mp2 a b : Str), filename mp2 = a ++ '@' :: b → '@' ∉ a → '@' ∉ b →
      parseIntCpp b = none → (parseMountPoint mp2).2 = -1) :=
  c9_package_id_roundtrip ⟨"com.a".toList, 3⟩ "/apex/com.a@3".toList
    (by decide) (by decide) (by decide) (by decide)
    (by
      simp only [GetPackageId, intToDecimal]
      rw [if_neg (by norm_num)]
      rw [show ((3 : Int)).toNat = 3 from rfl, natDigits_small 3 (by norm_num)]
      decide)

/-- C10: both manifest-parsing entry points reject a decoded manifest with
an empty name or a zero version, and consequently any successfully
returned manifest has a non-empty name and a non-zero version. -/
theorem c10_manifest_validation (jsonParse protoParse : Str → Option ApexManifest)
    (content : Str) :
    (∀ m, ParseManifestJson jsonParse content = .ok m →
      m.name ≠ [] ∧ m.version ≠ 0) ∧
    (∀ m, jsonParse content = some m → m.name = [] ∨ m.version = 0 →
      (ParseManifestJson jsonParse content).toOption = none) ∧
    (∀ m, ParseManifest protoParse content = .ok m →
      m.name ≠ [] ∧ m.version ≠ 0) ∧
    (∀ m, protoParse content = some m → m.name = [] ∨ m.version = 0 →
      (ParseManifest protoParse content).toOption = none) := by
  refine ⟨?_, ?_, ?_, ?_⟩
  · intro m hm
    cases hj : jsonParse content with
    | none =>
      simp only [ParseManifestJson, JsonToApexManifestMessage, hj] at hm
      exact absurd hm (by simp)
    | some mj =>
      simp only [ParseManifestJson, JsonToApexManifestMessage, hj] at hm
      by_cases h1 : mj.name = []
      · rw [if_pos h1] at hm
        exact absurd hm (by simp)
      · rw [if_neg h1] at hm
        by_cases h2 : mj.version = 0
        · rw [if_pos h2] at hm
          exact absurd hm (by simp)
        · rw [if_neg h2] at hm
          simp only [Except.ok.injEq] at hm
          subst hm
          exact ⟨h1, h2⟩
  · intro m hm hbad
    simp only [ParseManifestJson, JsonToApexManifestMessage, hm]
    rcases hbad with h | h
    · rw [if_pos h]
      rfl
    · by_cases h1 : m.name = []
      · rw [if_pos h1]
        rfl
      · rw [if_neg h1, if_pos h]
        rfl
  · intro m hm
    cases hj : protoParse content with
    | none =>
      simp only [ParseManifest, hj] at hm
      exact absurd hm (by simp)
    | some mj =>
      simp only [ParseManifest, hj] at hm
      by_cases h1 : mj.name = []
      · rw [if_pos h1] at hm
        exact absurd hm (by simp)
      · rw [if_neg h1] at hm
        by_cases h2 : mj.version = 0
        · rw [if_pos h2] at hm
          exact absurd hm (by simp)
        · rw [if_neg h2] at hm
          simp only [Except.ok.injEq] at hm
          subst hm
          exact ⟨h1, h2⟩
  · intro m hm hbad
    simp only [ParseManifest, hm]
    rcases hbad with h | h
    · rw [if_pos h]
      rfl
    · by_cases h1 : m.name = []
      · rw [if_pos h1]
        rfl
      · rw [if_neg h1, if_pos h]
        rfl

/-- Witness for C10: a decoded manifest with empty name is rejected. -/
theorem c10_manifest_validation_witness :
    (ParseManifest (fun _ => some ⟨[], 5⟩) "x".toList).toOption = none :=
  (c10_manifest_validation (fun _ => some ⟨[], 5⟩) (fun _ => some ⟨[], 5⟩)
    "x".toList).2.2.2 ⟨[], 5⟩ rfl (Or.inl rfl)

end ApexSpec
